import Mathlib

/-!
Verification development for the calculator application
(`components/Calculator.tsx`).

The calculator engine is a state machine over `CalculatorState`.  Button
presses dispatch events; each handler (`handleDigit`, `handleOperator`,
`handleDecimal`, `handleEquals`, `handleClear`, and the inline sign-toggle
and `%` button closures) is translated below as a pure transition function.

JavaScript numbers are modelled by `JSNum`: an exact rational together with
the special values `NaN`, `Infinity` and `-Infinity`.  This is an exact-
rational idealization of IEEE doubles: arithmetic on finite values is exact
(no rounding or overflow).  `parseFloat` and the default number-to-string
conversion `String(...)` are modelled by `parseFloatJS` and `jsString`;
`jsString` renders a finite rational in fixed decimal notation whenever its
denominator divides a power of ten (which is the case for every IEEE double,
hence for every value the JavaScript program can hold), and falls back to a
fraction rendering otherwise.
-/

/-! ### Characters and digit strings -/

/-- Numeric value of a digit character (`'0'` ↦ 0, ..., `'9'` ↦ 9). -/
def chVal (c : Char) : ℕ := c.toNat - 48

/-- The character for a decimal digit `d < 10`. -/
def digChar (d : ℕ) : Char := Char.ofNat (48 + d)

/-- Decimal digit test, as in the `StrDecimalLiteral` grammar of `parseFloat`. -/
def isDig (c : Char) : Bool := decide (48 ≤ c.toNat ∧ c.toNat ≤ 57)

/-- Whitespace skipped by `parseFloat` (space, tab, newline, carriage return). -/
def isWs (c : Char) : Bool :=
  decide (c.toNat = 32 ∨ c.toNat = 9 ∨ c.toNat = 10 ∨ c.toNat = 13)

/-- Value of a big-endian digit-character string. -/
def digitsVal (cs : List Char) : ℕ := cs.foldl (fun a c => 10 * a + chVal c) 0

/-! ### JavaScript numbers -/

/-- A JavaScript number: a finite (exact rational) value, `NaN`, `Infinity`
or `-Infinity`. -/
inductive JSNum where
  | finite (q : ℚ)
  | nan
  | inf
  | ninf
  deriving DecidableEq

/-- JavaScript `+` on numbers. -/
def jsAdd : JSNum → JSNum → JSNum
  | .finite a, .finite b => .finite (a + b)
  | .nan, _ => .nan
  | _, .nan => .nan
  | .inf, .ninf => .nan
  | .ninf, .inf => .nan
  | .inf, _ => .inf
  | _, .inf => .inf
  | .ninf, _ => .ninf
  | _, .ninf => .ninf

/-- JavaScript `-` on numbers. -/
def jsSub : JSNum → JSNum → JSNum
  | .finite a, .finite b => .finite (a - b)
  | .nan, _ => .nan
  | _, .nan => .nan
  | .inf, .inf => .nan
  | .ninf, .ninf => .nan
  | .inf, _ => .inf
  | .ninf, _ => .ninf
  | _, .inf => .ninf
  | _, .ninf => .inf

/-- JavaScript `*` on numbers. -/
def jsMul : JSNum → JSNum → JSNum
  | .finite a, .finite b => .finite (a * b)
  | .nan, _ => .nan
  | _, .nan => .nan
  | .inf, .inf => .inf
  | .inf, .ninf => .ninf
  | .ninf, .inf => .ninf
  | .ninf, .ninf => .inf
  | .inf, .finite b => if 0 < b then .inf else if b < 0 then .ninf else .nan
  | .finite a, .inf => if 0 < a then .inf else if a < 0 then .ninf else .nan
  | .ninf, .finite b => if 0 < b then .ninf else if b < 0 then .inf else .nan
  | .finite a, .ninf => if 0 < a then .ninf else if a < 0 then .inf else .nan

/-- JavaScript `/` on numbers. -/
def jsDiv : JSNum → JSNum → JSNum
  | .nan, _ => .nan
  | _, .nan => .nan
  | .finite a, .finite b =>
      if b = 0 then (if 0 < a then .inf else if a < 0 then .ninf else .nan)
      else .finite (a / b)
  | .inf, .finite b => if b < 0 then .ninf else .inf
  | .ninf, .finite b => if b < 0 then .inf else .ninf
  | .finite _, .inf => .finite 0
  | .finite _, .ninf => .finite 0
  | .inf, .inf => .nan
  | .inf, .ninf => .nan
  | .ninf, .inf => .nan
  | .ninf, .ninf => .nan

/-- `Number.isFinite`. -/
def jsIsFinite : JSNum → Bool
  | .finite _ => true
  | _ => false

/-! ### `parseFloat` -/

/-- Does the character list start with the literal `Infinity`? -/
def infPre (cs : List Char) : Bool :=
  decide (cs.take 8 = ['I', 'n', 'f', 'i', 'n', 'i', 't', 'y'])

/-- Exponent digits: `sgn * value`, or `0` when no digits follow
(JavaScript ignores a dangling exponent marker). -/
def expDigits (sgn : ℤ) (cs : List Char) : ℤ :=
  let ds := cs.takeWhile isDig
  if ds = [] then 0 else sgn * (digitsVal ds : ℤ)

/-- Optionally signed exponent digits after `e`/`E`. -/
def parseExpSigned (cs : List Char) : ℤ :=
  match cs with
  | [] => 0
  | c :: rest =>
    if c = '+' then expDigits 1 rest
    else if c = '-' then expDigits (-1) rest
    else expDigits 1 (c :: rest)

/-- Exponent part of a decimal literal (`e`/`E` followed by signed digits). -/
def parseExp (cs : List Char) : ℤ :=
  match cs with
  | [] => 0
  | c :: rest => if c = 'e' ∨ c = 'E' then parseExpSigned rest else 0

/-- Splits the fractional digits after a leading `'.'`, if present.
Returns the fractional digits and the remaining characters. -/
def splitFrac (cs : List Char) : List Char × List Char :=
  match cs with
  | [] => ([], [])
  | c :: t => if c = '.' then (t.takeWhile isDig, t.dropWhile isDig) else ([], c :: t)

/-- `10 ^ e` on rationals for an integer exponent, by cases on the sign
(structural, so that concrete evaluation reduces in the kernel). -/
def tenPow : ℤ → ℚ
  | .ofNat n => (10 : ℚ) ^ n
  | .negSucc n => ((10 : ℚ) ^ (n + 1))⁻¹

/-- The body of `parseFloat` after whitespace and sign handling:
`Infinity`, or integer digits, optional fraction, optional exponent;
`NaN` when no digits are found.  Trailing garbage is ignored. -/
def parseUnsigned (sgn : ℚ) (cs : List Char) : JSNum :=
  if infPre cs then (if 0 ≤ sgn then JSNum.inf else JSNum.ninf)
  else
    let ds := cs.takeWhile isDig
    let rest1 := cs.dropWhile isDig
    let fs := (splitFrac rest1).1
    let rest2 := (splitFrac rest1).2
    if ds = [] ∧ fs = [] then JSNum.nan
    else JSNum.finite (sgn *
      ((digitsVal ds : ℚ) + (digitsVal fs : ℚ) / (10 : ℚ) ^ fs.length) *
      tenPow (parseExp rest2))

/-- Sign handling of `parseFloat`. -/
def parseSigned (cs : List Char) : JSNum :=
  match cs with
  | [] => parseUnsigned 1 []
  | c :: rest =>
    if c = '+' then parseUnsigned 1 rest
    else if c = '-' then parseUnsigned (-1) rest
    else parseUnsigned 1 (c :: rest)

/-- Model of JavaScript `parseFloat` on a string. -/
def parseFloatJS (s : String) : JSNum :=
  parseSigned (s.data.dropWhile isWs)

/-! ### Number-to-string conversion (`String(...)`) -/

/-- Big-endian decimal digits of `n`, by fuel-bounded recursion
(structural, so that concrete evaluation reduces in the kernel). -/
def natCharsAux : ℕ → ℕ → List Char
  | 0, _ => []
  | fuel + 1, n =>
    if n = 0 then [] else natCharsAux fuel (n / 10) ++ [digChar (n % 10)]

/-- Canonical decimal digit string of a natural number. -/
def natChars (n : ℕ) : List Char :=
  if n = 0 then ['0'] else natCharsAux (n + 1) n

/-- Exactly `k` big-endian decimal digits of `m % 10^k` (leading zeros kept). -/
def fixedChars : ℕ → ℕ → List Char
  | 0, _ => []
  | k + 1, m => fixedChars k (m / 10) ++ [digChar (m % 10)]

/-- Removes trailing `'0'` characters. -/
def trimZeros (cs : List Char) : List Char :=
  ((cs.reverse).dropWhile (fun c => c = '0')).reverse

/-- The least `k ≤ d` with `d ∣ 10^k`, when a power of ten is divisible
by `d` at all. -/
def decExpFind (d : ℕ) : Option ℕ :=
  (List.range (d + 1)).find? (fun k => 10 ^ k % d == 0)

/-- Fixed-notation decimal rendering of a nonnegative rational whose
denominator divides a power of ten: integer digits, then a fractional part
with trailing zeros trimmed and the point dropped when the fraction is
empty.  (The fraction fallback is unreachable for values an IEEE double can
hold, whose denominators are powers of two.) -/
def posRatChars (q : ℚ) : List Char :=
  match decExpFind q.den with
  | some k =>
      let N := q.num.toNat * (10 ^ k / q.den)
      let frac := trimZeros (fixedChars k (N % 10 ^ k))
      natChars (N / 10 ^ k) ++ (if frac = [] then [] else '.' :: frac)
  | none => natChars q.num.toNat ++ '/' :: natChars q.den

/-- Model of JavaScript `String(...)` on a number. -/
def jsString : JSNum → String
  | .nan => "NaN"
  | .inf => "Infinity"
  | .ninf => "-Infinity"
  | .finite q => if q < 0 then ⟨'-' :: posRatChars (-q)⟩ else ⟨posRatChars q⟩

/-! ### The calculator state machine (`components/Calculator.tsx`) -/

/-- The `CalculatorState` interface. -/
structure CalculatorState where
  displayValue : String
  operator : Option String
  firstOperand : Option JSNum
  waitingForSecondOperand : Bool
  activeOperator : Option String
  deriving DecidableEq

/-- The initial state passed to `useState`, also produced by `handleClear`. -/
def initState : CalculatorState :=
  { displayValue := ("0"), operator := none, firstOperand := none,
    waitingForSecondOperand := false, activeOperator := none }

/-- `handleDigit`. -/
def handleDigit (digit : String) (s : CalculatorState) : CalculatorState :=
  { s with
    displayValue :=
      if s.waitingForSecondOperand = true ∨ s.displayValue = ("0") then digit
      else s.displayValue ++ digit,
    waitingForSecondOperand := false,
    activeOperator := none }

/-- `performOperation`. -/
def performOperation (operator : String) (operand1 operand2 : JSNum) : JSNum :=
  if operator = ("+") then jsAdd operand1 operand2
  else if operator = ("-") then jsSub operand1 operand2
  else if operator = ("*") then jsMul operand1 operand2
  else if operator = ("/") then
    (if operand2 = JSNum.finite 0 then JSNum.inf else jsDiv operand1 operand2)
  else operand2

/-- `handleOperator`. -/
def handleOperator (nextOperator : String) (s : CalculatorState) : CalculatorState :=
  let inputValue := parseFloatJS s.displayValue
  if s.activeOperator = some nextOperator ∧ s.waitingForSecondOperand = true then s
  else
    match s.firstOperand with
    | none =>
      { s with firstOperand := some inputValue, operator := some nextOperator,
               waitingForSecondOperand := true, activeOperator := some nextOperator }
    | some firstOperand =>
      match s.operator with
      | some op =>
        let result := performOperation op firstOperand inputValue
        if jsIsFinite result = false then
          { displayValue := ("Error"), operator := none, firstOperand := none,
            waitingForSecondOperand := false, activeOperator := none }
        else
          { s with displayValue := jsString result, firstOperand := some result,
                   operator := some nextOperator, waitingForSecondOperand := true,
                   activeOperator := some nextOperator }
      | none => s

/-- `handleDecimal`. -/
def handleDecimal (s : CalculatorState) : CalculatorState :=
  if s.waitingForSecondOperand = true then
    { s with displayValue := ("0."), waitingForSecondOperand := false,
             activeOperator := none }
  else if '.' ∉ s.displayValue.data then
    { s with displayValue := s.displayValue ++ (".") , activeOperator := none }
  else s

/-- `handleClear`. -/
def handleClear : CalculatorState := initState

/-- `handleEquals`. -/
def handleEquals (s : CalculatorState) : CalculatorState :=
  match s.firstOperand, s.operator with
  | some firstOperand, some operator =>
    let secondOperand := parseFloatJS s.displayValue
    let result := performOperation operator firstOperand secondOperand
    if jsIsFinite result = false then
      { displayValue := ("Error"), operator := none, firstOperand := none,
        waitingForSecondOperand := false, activeOperator := none }
    else
      { displayValue := jsString result, operator := none, firstOperand := none,
        waitingForSecondOperand := false, activeOperator := none }
  | _, _ => { s with activeOperator := none }

/-- The sign-toggle button's `onPress` closure:
`displayValue = String(parseFloat(displayValue) * -1)`. -/
def toggleSignPress (s : CalculatorState) : CalculatorState :=
  { s with displayValue :=
      jsString (jsMul (parseFloatJS s.displayValue) (JSNum.finite (-1))) }

/-- The `%` button's `onPress` closure:
`displayValue = String(parseFloat(displayValue) / 100)`. -/
def percentPress (s : CalculatorState) : CalculatorState :=
  { s with displayValue :=
      jsString (jsDiv (parseFloatJS s.displayValue) (JSNum.finite 100)) }

/-- The input events the button grid can dispatch. -/
inductive Event where
  | digit (d : String)
  | decimal
  | operatorBtn (op : String)
  | equals
  | clear
  | toggleSign
  | percent
  deriving DecidableEq

/-- One transition of the calculator state machine. -/
def stepEv (s : CalculatorState) (e : Event) : CalculatorState :=
  match e with
  | .digit d => handleDigit d s
  | .decimal => handleDecimal s
  | .operatorBtn op => handleOperator op s
  | .equals => handleEquals s
  | .clear => handleClear
  | .toggleSign => toggleSignPress s
  | .percent => percentPress s

/-- The strings the digit and operator buttons of the grid actually dispatch. -/
def validEventB : Event → Bool
  | .digit d => decide (d ∈ [("0"), ("1"), ("2"), ("3"), ("4"), ("5"), ("6"), ("7"), ("8"), ("9")])
  | .operatorBtn op => decide (op ∈ [("+"), ("-"), ("*"), ("/")])
  | _ => true

/-- Running a list of events from a state. -/
def runFrom (s : CalculatorState) (es : List Event) : CalculatorState :=
  es.foldl stepEv s

/-- Running a list of events from the initial state. -/
def run (es : List Event) : CalculatorState := runFrom initState es

/-- A state is reachable when some sequence of button presses produces it
from the initial state. -/
def Reachable (s : CalculatorState) : Prop :=
  ∃ es : List Event, es.all validEventB = true ∧ run es = s

/-- Number of decimal points in a string. -/
def dotCount (s : String) : ℕ := s.data.count '.'

/-- Decimal-representability: `v` times some power of ten is an integer.
Every value `parseFloatJS` can return, and every value an IEEE double can
hold, is of this form. -/
def IsDec (v : ℚ) : Prop := ∃ (j : ℕ) (m : ℤ), v * 10 ^ j = (m : ℚ)

/-- Invariant of the Error display (claim C1, as amended): when the display
shows `Error`, either all pending computation is cleared, or an operator was
pressed in the Error state, which captured `NaN` as the first operand. -/
def ErrorInv (s : CalculatorState) : Prop :=
  s.displayValue = ("Error") →
    (s.operator = none ∧ s.firstOperand = none ∧ s.waitingForSecondOperand = false) ∨
    (s.firstOperand = some JSNum.nan ∧ s.operator ≠ none ∧
      s.activeOperator = s.operator ∧ s.waitingForSecondOperand = true)

/-- The display string is never empty. -/
def NonemptyInv (s : CalculatorState) : Prop := s.displayValue ≠ ("")

/-- The display string contains at most one decimal point. -/
def DotInv (s : CalculatorState) : Prop := s.displayValue.data.count '.' ≤ 1

/-- The operator highlight is only shown while waiting for the second
operand. -/
def ActiveInv (s : CalculatorState) : Prop :=
  s.activeOperator ≠ none → s.waitingForSecondOperand = true

unseal Rat.add Rat.mul Rat.sub Rat.inv

/-! ### Digit characters -/

theorem isDig_iff {c : Char} : isDig c = true ↔ 48 ≤ c.toNat ∧ c.toNat ≤ 57 := by
  simp [isDig]

theorem chVal_digChar {d : ℕ} (h : d < 10) : chVal (digChar d) = d := by
  interval_cases d <;> decide

theorem isDig_digChar {d : ℕ} (h : d < 10) : isDig (digChar d) = true := by
  interval_cases d <;> decide

theorem ne_of_toNat {c c' : Char} (h : c.toNat ≠ c'.toNat) : c ≠ c' := by
  intro he
  exact h (congrArg Char.toNat he)

theorem isDig_not_ws {c : Char} (h : isDig c = true) : isWs c = false := by
  rw [isDig_iff] at h
  simp only [isWs, decide_eq_false_iff_not]
  omega

theorem isDig_ne_plus {c : Char} (h : isDig c = true) : c ≠ '+' := by
  rw [isDig_iff] at h
  exact ne_of_toNat (by simpa using by omega)

theorem isDig_ne_minus {c : Char} (h : isDig c = true) : c ≠ '-' := by
  rw [isDig_iff] at h
  exact ne_of_toNat (by simpa using by omega)

theorem isDig_ne_dot {c : Char} (h : isDig c = true) : c ≠ '.' := by
  rw [isDig_iff] at h
  exact ne_of_toNat (by simpa using by omega)

theorem isDig_ne_big {c : Char} (h : isDig c = true) : c ≠ 'I' := by
  rw [isDig_iff] at h
  exact ne_of_toNat (by simpa using by omega)

/-! ### Values of digit strings -/

theorem digitsVal_concat (xs : List Char) (c : Char) :
    digitsVal (xs ++ [c]) = 10 * digitsVal xs + chVal c := by
  simp [digitsVal, List.foldl_append]

theorem natCharsAux_val : ∀ (fuel n : ℕ), n < fuel →
    digitsVal (natCharsAux fuel n) = n := by
  intro fuel
  induction fuel with
  | zero => omega
  | succ f ih =>
    intro n hn
    by_cases h0 : n = 0
    · simp [natCharsAux, h0, digitsVal]
    · rw [natCharsAux, if_neg h0, digitsVal_concat,
        ih (n / 10) (by omega), chVal_digChar (Nat.mod_lt _ (by omega))]
      omega

theorem natCharsAux_digits : ∀ (fuel n : ℕ), ∀ c ∈ natCharsAux fuel n,
    isDig c = true := by
  intro fuel
  induction fuel with
  | zero => intro n c hc; simp [natCharsAux] at hc
  | succ f ih =>
    intro n c hc
    by_cases h0 : n = 0
    · simp [natCharsAux, h0] at hc
    · rw [natCharsAux, if_neg h0] at hc
      rcases List.mem_append.mp hc with h | h
      · exact ih _ _ h
      · rcases List.mem_singleton.mp h with rfl
        exact isDig_digChar (Nat.mod_lt _ (by omega))

theorem natChars_val (n : ℕ) : digitsVal (natChars n) = n := by
  by_cases h0 : n = 0
  · simp [natChars, h0, digitsVal, chVal]
  · rw [natChars, if_neg h0]
    exact natCharsAux_val _ _ (by omega)

theorem natChars_digits (n : ℕ) : ∀ c ∈ natChars n, isDig c = true := by
  by_cases h0 : n = 0
  · simp only [natChars, h0, if_pos]
    intro c hc
    rcases List.mem_singleton.mp hc with rfl
    decide
  · rw [natChars, if_neg h0]
    exact natCharsAux_digits _ _

theorem natChars_ne_nil (n : ℕ) : natChars n ≠ [] := by
  by_cases h0 : n = 0
  · simp [natChars, h0]
  · rw [natChars, if_neg h0, natCharsAux, if_neg h0]
    simp

theorem fixedChars_length : ∀ (k m : ℕ), (fixedChars k m).length = k := by
  intro k
  induction k with
  | zero => intro m; simp [fixedChars]
  | succ j ih => intro m; simp [fixedChars, ih]

theorem fixedChars_digits : ∀ (k m : ℕ), ∀ c ∈ fixedChars k m,
    isDig c = true := by
  intro k
  induction k with
  | zero => intro m c hc; simp [fixedChars] at hc
  | succ j ih =>
    intro m c hc
    rw [fixedChars] at hc
    rcases List.mem_append.mp hc with h | h
    · exact ih _ _ h
    · rcases List.mem_singleton.mp h with rfl
      exact isDig_digChar (Nat.mod_lt _ (by omega))

theorem mod_ten_pow_succ (k m : ℕ) :
    m % 10 ^ (k + 1) = 10 * (m / 10 % 10 ^ k) + m % 10 := by
  conv_lhs => rw [← Nat.div_add_mod m 10]
  have h1 : 10 * (m / 10) % 10 ^ (k + 1) = 10 * (m / 10 % 10 ^ k) := by
    rw [pow_succ]
    rw [mul_comm (10 ^ k) 10]
    exact Nat.mul_mod_mul_left 10 (m / 10) (10 ^ k)
  have h2 : m / 10 % 10 ^ k < 10 ^ k := Nat.mod_lt _ (Nat.pos_pow_of_pos _ (by omega))
  have h3 : m % 10 < 10 := Nat.mod_lt _ (by omega)
  have h4 : (10 : ℕ) ^ k ≤ 10 ^ (k + 1) := Nat.pow_le_pow_right (by omega) (by omega)
  rw [Nat.add_mod, h1]
  have h5 : m % 10 % 10 ^ (k + 1) = m % 10 := Nat.mod_eq_of_lt (by omega)
  rw [h5]
  exact Nat.mod_eq_of_lt (by rw [pow_succ]; omega)

theorem fixedChars_val : ∀ (k m : ℕ), digitsVal (fixedChars k m) = m % 10 ^ k := by
  intro k
  induction k with
  | zero => intro m; simp [fixedChars, digitsVal, Nat.mod_one]
  | succ j ih =>
    intro m
    rw [fixedChars, digitsVal_concat, ih,
      chVal_digChar (Nat.mod_lt _ (by omega)), mod_ten_pow_succ]

/-! ### Trimming trailing zeros preserves the fractional value -/

theorem trimZeros_val_aux : ∀ rs : List Char,
    (digitsVal ((rs.dropWhile (fun c => c = '0')).reverse) : ℚ) /
        10 ^ (rs.dropWhile (fun c => c = '0')).length =
      (digitsVal rs.reverse : ℚ) / 10 ^ rs.length := by
  intro rs
  induction rs with
  | nil => simp
  | cons c rs ih =>
    by_cases h0 : c = '0'
    · subst h0
      rw [List.dropWhile_cons_of_pos (by simp)]
      rw [ih]
      have hv : digitsVal (('0' :: rs).reverse) = 10 * digitsVal rs.reverse := by
        simp only [List.reverse_cons, digitsVal_concat]
        have : chVal '0' = 0 := by decide
        omega
      rw [hv]
      push_cast
      rw [List.length_cons, pow_succ]
      have h10 : ((10 : ℚ) ^ rs.length) ≠ 0 := by positivity
      field_simp
      ring
    · rw [List.dropWhile_cons_of_neg (by simpa using h0)]

theorem trimZeros_val (cs : List Char) :
    (digitsVal (trimZeros cs) : ℚ) / 10 ^ (trimZeros cs).length =
      (digitsVal cs : ℚ) / 10 ^ cs.length := by
  have h := trimZeros_val_aux cs.reverse
  rw [List.reverse_reverse, List.length_reverse] at h
  rw [trimZeros]
  rw [List.length_reverse]
  exact h

theorem trimZeros_subset (cs : List Char) : ∀ c ∈ trimZeros cs, c ∈ cs := by
  intro c hc
  rw [trimZeros, List.mem_reverse] at hc
  have := (List.dropWhile_sublist (l := cs.reverse) (p := fun c => c = '0')).subset hc
  rwa [List.mem_reverse] at this

/-! ### takeWhile and dropWhile over a block of matching characters -/

theorem takeWhile_append_of_all {p : Char → Bool} :
    ∀ {A B : List Char}, (∀ c ∈ A, p c = true) →
      (A ++ B).takeWhile p = A ++ B.takeWhile p := by
  intro A
  induction A with
  | nil => simp
  | cons c t ih =>
    intro B h
    have hc : p c = true := h c (by simp)
    simp only [List.cons_append, List.takeWhile_cons, hc, if_pos]
    rw [ih (fun x hx => h x (by simp [hx]))]

theorem dropWhile_append_of_all {p : Char → Bool} :
    ∀ {A B : List Char}, (∀ c ∈ A, p c = true) →
      (A ++ B).dropWhile p = B.dropWhile p := by
  intro A
  induction A with
  | nil => simp
  | cons c t ih =>
    intro B h
    have hc : p c = true := h c (by simp)
    simp only [List.cons_append, List.dropWhile_cons, hc, if_pos]
    exact ih (fun x hx => h x (by simp [hx]))

theorem takeWhile_all {p : Char → Bool} {A : List Char}
    (h : ∀ c ∈ A, p c = true) : A.takeWhile p = A := by
  have := takeWhile_append_of_all (B := []) h
  simpa using this

theorem dropWhile_all {p : Char → Bool} {A : List Char}
    (h : ∀ c ∈ A, p c = true) : A.dropWhile p = [] := by
  have := dropWhile_append_of_all (B := []) h
  simpa using this

/-! ### Denominators dividing a power of ten -/

theorem dvd_ten_pow_self : ∀ d : ℕ, 0 < d → ∀ j : ℕ, d ∣ 10 ^ j → d ∣ 10 ^ d := by
  intro d
  induction d using Nat.strong_induction_on with
  | _ d ih =>
    intro hd j hdvd
    by_cases h1 : d = 1
    · subst h1; exact one_dvd _
    · obtain ⟨p, hp, hpd⟩ := Nat.exists_prime_and_dvd h1
      have hg10 : Nat.gcd d 10 ∣ 10 := Nat.gcd_dvd_right d 10
      have hgd : Nat.gcd d 10 ∣ d := Nat.gcd_dvd_left d 10
      have hp10 : p ∣ 10 := hp.dvd_of_dvd_pow (hpd.trans hdvd)
      have hpg : p ∣ Nat.gcd d 10 := Nat.dvd_gcd hpd hp10
      have hgpos : 0 < Nat.gcd d 10 := Nat.gcd_pos_of_pos_right d (by omega)
      have hg2 : 2 ≤ Nat.gcd d 10 :=
        le_trans hp.two_le (Nat.le_of_dvd hgpos hpg)
      set g := Nat.gcd d 10 with hgdef
      set d' := d / g with hd'def
      have hd'pos : 0 < d' := Nat.div_pos (Nat.le_of_dvd hd hgd) (by omega)
      have hd'lt : d' < d := Nat.div_lt_self hd (by omega)
      have hd'd : d' ∣ d := Nat.div_dvd_of_dvd hgd
      have hd'pow : d' ∣ 10 ^ j := hd'd.trans hdvd
      have ihd' : d' ∣ 10 ^ d' := ih d' hd'lt hd'pos j hd'pow
      have hrec : d = d' * g := (Nat.div_mul_cancel hgd).symm
      calc d = d' * g := hrec
        _ ∣ 10 ^ d' * 10 := mul_dvd_mul ihd' hg10
        _ = 10 ^ (d' + 1) := by rw [pow_succ]
        _ ∣ 10 ^ d := pow_dvd_pow 10 (by omega)

theorem decExpFind_spec (d : ℕ) (hd : 0 < d) (j : ℕ) (hdvd : d ∣ 10 ^ j) :
    ∃ k, decExpFind d = some k ∧ d ∣ 10 ^ k := by
  have hdd : d ∣ 10 ^ d := dvd_ten_pow_self d hd j hdvd
  rcases h : decExpFind d with _ | k
  · rw [decExpFind, List.find?_eq_none] at h
    have hmem : d ∈ List.range (d + 1) := List.mem_range.mpr (by omega)
    have hmod : 10 ^ d % d = 0 := Nat.mod_eq_zero_of_dvd hdd
    have := h d hmem
    simp [hmod] at this
  · refine ⟨k, rfl, ?_⟩
    have hp := List.find?_some h
    have : 10 ^ k % d = 0 := by simpa using hp
    exact Nat.dvd_of_mod_eq_zero this

/-! ### Parsing the rendered string back -/

theorem tenPow_zero : tenPow 0 = 1 := by
  show tenPow (Int.ofNat 0) = 1
  rw [tenPow]
  exact pow_zero 10

theorem parseSigned_digit_head {c : Char} {cs : List Char} (h : isDig c = true) :
    parseSigned (c :: cs) = parseUnsigned 1 (c :: cs) := by
  rw [parseSigned, if_neg (isDig_ne_plus h), if_neg (isDig_ne_minus h)]

theorem dropWhile_isWs_digit_head {c : Char} {cs : List Char} (h : isDig c = true) :
    (c :: cs).dropWhile isWs = c :: cs :=
  List.dropWhile_cons_of_neg (by simp [isDig_not_ws h])

theorem infPre_digit_head {c : Char} {cs : List Char} (h : isDig c = true) :
    infPre (c :: cs) = false := by
  simp only [infPre, decide_eq_false_iff_not]
  intro he
  have h8 : (8 : ℕ) = 7 + 1 := rfl
  rw [h8, List.take_succ_cons] at he
  have : c = 'I' := (List.cons_eq_cons.mp he).1
  exact isDig_ne_big h this

theorem parseUnsigned_int_frac (sgn : ℚ) (A F : List Char)
    (hA : ∀ c ∈ A, isDig c = true) (hAne : A ≠ [])
    (hF : ∀ c ∈ F, isDig c = true) :
    parseUnsigned sgn (A ++ (if F = [] then [] else '.' :: F)) =
      JSNum.finite (sgn * ((digitsVal A : ℚ) + (digitsVal F : ℚ) / 10 ^ F.length)) := by
  obtain ⟨c, t, rfl⟩ := List.exists_cons_of_ne_nil hAne
  have hc : isDig c = true := hA c (by simp)
  by_cases hFe : F = []
  · subst hFe
    rw [if_pos rfl, List.append_nil]
    have hinf : infPre (c :: t) = false := infPre_digit_head hc
    have h1 : (c :: t).takeWhile isDig = c :: t := takeWhile_all hA
    have h2 : (c :: t).dropWhile isDig = [] := dropWhile_all hA
    simp only [parseUnsigned, hinf, Bool.false_eq_true, if_false, h1, h2, splitFrac]
    rw [if_neg (by simp)]
    simp [digitsVal, tenPow_zero, parseExp]
  · rw [if_neg hFe]
    have hinf : infPre (c :: t ++ '.' :: F) = false := by
      rw [List.cons_append]
      exact infPre_digit_head hc
    have hdot : isDig '.' = false := by decide
    have htake : (c :: t ++ '.' :: F).takeWhile isDig = c :: t := by
      rw [takeWhile_append_of_all hA, List.takeWhile_cons_of_neg (by simp [hdot])]
      simp
    have hdrop : (c :: t ++ '.' :: F).dropWhile isDig = '.' :: F := by
      rw [dropWhile_append_of_all hA, List.dropWhile_cons_of_neg (by simp [hdot])]
    have hsf1 : (splitFrac ('.' :: F)).1 = F := by
      simp only [splitFrac, if_pos rfl]
      exact takeWhile_all hF
    have hsf2 : (splitFrac ('.' :: F)).2 = [] := by
      simp only [splitFrac, if_pos rfl]
      exact dropWhile_all hF
    simp only [parseUnsigned, hinf, Bool.false_eq_true, if_false, htake, hdrop, hsf1, hsf2]
    rw [if_neg (by simp)]
    simp [parseExp, tenPow_zero]

theorem parseUnsigned_posRatChars (q : ℚ) (h0 : 0 ≤ q) (j : ℕ)
    (hdvd : q.den ∣ 10 ^ j) (sgn : ℚ) :
    parseUnsigned sgn (posRatChars q) = JSNum.finite (sgn * q) := by
  obtain ⟨k, hfind, hk⟩ := decExpFind_spec q.den q.den_pos j hdvd
  have hposk : (0 : ℕ) < 10 ^ k := Nat.pos_pow_of_pos _ (by omega)
  have h10 : ((10 : ℚ) ^ k) ≠ 0 := by positivity
  have hden_ne : ((q.den : ℚ)) ≠ 0 := by
    exact_mod_cast q.den_pos.ne'
  set N := q.num.toNat * (10 ^ k / q.den) with hN
  set F := trimZeros (fixedChars k (N % 10 ^ k)) with hF
  have hchars : posRatChars q =
      natChars (N / 10 ^ k) ++ (if F = [] then [] else '.' :: F) := by
    rw [posRatChars, hfind]
  rw [hchars]
  rw [parseUnsigned_int_frac sgn _ F (natChars_digits _) (natChars_ne_nil _)
    (fun c hc => fixedChars_digits _ _ c (trimZeros_subset _ c hc))]
  have hfrac : (digitsVal F : ℚ) / 10 ^ F.length = (N % 10 ^ k : ℕ) / (10 : ℚ) ^ k := by
    rw [hF, trimZeros_val, fixedChars_val, fixedChars_length,
      Nat.mod_eq_of_lt (Nat.mod_lt _ hposk)]
  have hnum : ((q.num.toNat : ℕ) : ℚ) = (q.num : ℚ) := by
    exact_mod_cast congrArg (Int.cast : ℤ → ℚ) (Int.toNat_of_nonneg (Rat.num_nonneg.mpr h0))
  have hNq : (N : ℚ) = q * 10 ^ k := by
    rw [hN]
    rw [Nat.cast_mul, Nat.cast_div hk hden_ne, Nat.cast_pow, hnum]
    have hqnd : ((q.num : ℚ)) = q * q.den := by
      have hnd := congrArg (fun x : ℚ => x * q.den) (Rat.num_div_den q)
      simp only at hnd
      rwa [div_mul_cancel₀ _ hden_ne] at hnd
    rw [hqnd]
    push_cast
    field_simp
    rw [hqnd]
    ring
  have hsplit : ((N / 10 ^ k : ℕ) : ℚ) + ((N % 10 ^ k : ℕ) : ℚ) / 10 ^ k = (N : ℚ) / 10 ^ k := by
    have hdm := Nat.div_add_mod N (10 ^ k)
    field_simp
    have hcast : ((10 ^ k * (N / 10 ^ k) + N % 10 ^ k : ℕ) : ℚ) = (N : ℚ) := by
      exact_mod_cast congrArg (Nat.cast : ℕ → ℚ) hdm
    push_cast at hcast
    linarith [hcast]
  have hval : (digitsVal (natChars (N / 10 ^ k)) : ℚ) + (digitsVal F : ℚ) / 10 ^ F.length = q := by
    rw [natChars_val, hfrac, hsplit, hNq]
    field_simp
  rw [hval]

theorem cons_head_append {A B : List Char} (hne : A ≠ [])
    (hd : ∀ c ∈ A, isDig c = true) :
    ∃ c t, A ++ B = c :: t ∧ isDig c = true := by
  obtain ⟨c, t, rfl⟩ := List.exists_cons_of_ne_nil hne
  exact ⟨c, t ++ B, by simp, hd c (by simp)⟩

theorem posRatChars_head (q : ℚ) :
    ∃ c t, posRatChars q = c :: t ∧ isDig c = true := by
  rcases hfind : decExpFind q.den with _ | k
  · rw [posRatChars, hfind]
    exact cons_head_append (natChars_ne_nil _) (natChars_digits _)
  · rw [posRatChars, hfind]
    exact cons_head_append (natChars_ne_nil _) (natChars_digits _)

theorem den_dvd_of_isDec {v : ℚ} (h : IsDec v) : ∃ j, v.den ∣ 10 ^ j := by
  obtain ⟨j, m, hjm⟩ := h
  refine ⟨j, ?_⟩
  have hv : v = Rat.divInt m (10 ^ j : ℤ) := by
    rw [Rat.divInt_eq_div]
    rw [eq_div_iff (by positivity : (((10 ^ j : ℤ) : ℚ)) ≠ 0)]
    push_cast
    exact_mod_cast hjm
  have h2 := Rat.den_dvd m (10 ^ j : ℤ)
  rw [← hv] at h2
  exact_mod_cast h2

theorem parseFloatJS_jsString {v : ℚ} (h : IsDec v) :
    parseFloatJS (jsString (JSNum.finite v)) = JSNum.finite v := by
  obtain ⟨j, hden⟩ := den_dvd_of_isDec h
  by_cases hneg : v < 0
  · have hchars : jsString (JSNum.finite v) = ⟨'-' :: posRatChars (-v)⟩ := by
      rw [jsString, if_pos hneg]
    rw [hchars, parseFloatJS]
    show parseSigned (('-' :: posRatChars (-v)).dropWhile isWs) = JSNum.finite v
    rw [List.dropWhile_cons_of_neg (by decide)]
    rw [parseSigned, if_neg (by decide), if_pos rfl]
    rw [parseUnsigned_posRatChars (-v) (by linarith) j (by rw [Rat.neg_den]; exact hden) (-1)]
    rw [neg_one_mul, neg_neg]
  · have hchars : jsString (JSNum.finite v) = ⟨posRatChars v⟩ := by
      rw [jsString, if_neg hneg]
    obtain ⟨c, t, hct, hc⟩ := posRatChars_head v
    rw [hchars, parseFloatJS]
    show parseSigned ((posRatChars v).dropWhile isWs) = JSNum.finite v
    rw [hct, dropWhile_isWs_digit_head hc, parseSigned_digit_head hc, ← hct]
    rw [parseUnsigned_posRatChars v (by linarith [not_lt.mp hneg]) j hden 1]
    rw [one_mul]

theorem tenPow_mul_pow (e : ℤ) :
    tenPow e * (10 : ℚ) ^ e.natAbs = 10 ^ ((e + e.natAbs).toNat) := by
  cases e with
  | ofNat n =>
    rw [tenPow]
    have h1 : (Int.ofNat n).natAbs = n := rfl
    have h2 : ((Int.ofNat n + (n : ℤ)).toNat) = n + n := by
      have h3 : Int.ofNat n = (n : ℤ) := rfl
      rw [h3]
      omega
    rw [h1, h2, pow_add]
  | negSucc n =>
    rw [tenPow]
    have h1 : (Int.negSucc n).natAbs = n + 1 := rfl
    have h2 : ((Int.negSucc n + (((n + 1 : ℕ)) : ℤ)).toNat) = 0 := by
      have h3 : Int.negSucc n = -((n : ℤ) + 1) := rfl
      rw [h3]
      omega
    rw [h1, h2, pow_zero]
    exact inv_mul_cancel₀ (by positivity)

theorem parseUnsigned_finite {sgn : ℚ} {cs : List Char} {v : ℚ}
    (hsgn : sgn = 1 ∨ sgn = -1) (h : parseUnsigned sgn cs = JSNum.finite v) :
    IsDec v := by
  rw [parseUnsigned] at h
  simp only [] at h
  split_ifs at h with h1 h2 h3
  injection h with hv
  revert hv
  generalize (splitFrac (cs.dropWhile isDig)).2 = rest2
  generalize (splitFrac (cs.dropWhile isDig)).1 = fs
  generalize digitsVal (cs.takeWhile isDig) = I
  generalize hgen : parseExp rest2 = e
  intro hv
  set Fv := digitsVal fs with hFv
  set f := fs.length with hf
  have hkey : ((I : ℚ) + (Fv : ℚ) / 10 ^ f) * 10 ^ f = (I : ℚ) * 10 ^ f + Fv := by
    field_simp
  rcases hsgn with rfl | rfl
  · refine ⟨f + e.natAbs, (I * 10 ^ f + Fv : ℕ) * 10 ^ ((e + e.natAbs).toNat), ?_⟩
    rw [← hv, pow_add]
    push_cast
    calc 1 * ((I : ℚ) + (Fv : ℚ) / 10 ^ f) * tenPow e * (10 ^ f * 10 ^ e.natAbs)
        = (((I : ℚ) + (Fv : ℚ) / 10 ^ f) * 10 ^ f) * (tenPow e * 10 ^ e.natAbs) := by
          ring
      _ = ((I : ℚ) * 10 ^ f + Fv) * 10 ^ ((e + |e|).toNat) := by
          rw [hkey, tenPow_mul_pow, Int.abs_eq_natAbs]
  · refine ⟨f + e.natAbs, -((I * 10 ^ f + Fv : ℕ) * 10 ^ ((e + e.natAbs).toNat) : ℤ), ?_⟩
    rw [← hv, pow_add]
    push_cast
    calc (-1 : ℚ) * ((I : ℚ) + (Fv : ℚ) / 10 ^ f) * tenPow e * (10 ^ f * 10 ^ e.natAbs)
        = -((((I : ℚ) + (Fv : ℚ) / 10 ^ f) * 10 ^ f) * (tenPow e * 10 ^ e.natAbs)) := by
          ring
      _ = -(((I : ℚ) * 10 ^ f + Fv) * 10 ^ ((e + |e|).toNat)) := by
          rw [hkey, tenPow_mul_pow, Int.abs_eq_natAbs]

theorem isDec_of_parseFloat {s : String} {v : ℚ}
    (h : parseFloatJS s = JSNum.finite v) : IsDec v := by
  rw [parseFloatJS] at h
  rcases hcs : s.data.dropWhile isWs with _ | ⟨c, rest⟩ <;> rw [hcs] at h
  · rw [parseSigned] at h
    exact parseUnsigned_finite (Or.inl rfl) h
  · rw [parseSigned] at h
    split_ifs at h
    · exact parseUnsigned_finite (Or.inl rfl) h
    · exact parseUnsigned_finite (Or.inr rfl) h
    · exact parseUnsigned_finite (Or.inl rfl) h

/-! ### Facts about rendered display strings -/

theorem count_dot_eq_zero {l : List Char} (h : ∀ c ∈ l, isDig c = true) :
    l.count '.' = 0 := by
  rw [List.count_eq_zero]
  intro hm
  have := isDig_ne_dot (h _ hm)
  exact this rfl

theorem posRatChars_count_dot (q : ℚ) : (posRatChars q).count '.' ≤ 1 := by
  rcases hfind : decExpFind q.den with _ | k <;> rw [posRatChars, hfind]
  · rw [List.count_append, count_dot_eq_zero (natChars_digits _)]
    rw [List.count_cons]
    rw [count_dot_eq_zero (natChars_digits _)]
    simp
  · rw [List.count_append, count_dot_eq_zero (natChars_digits _)]
    split_ifs
    · simp
    · rw [List.count_cons]
      rw [count_dot_eq_zero
        (fun c hc => fixedChars_digits _ _ c (trimZeros_subset _ c hc))]
      simp

theorem jsString_count_dot (x : JSNum) : (jsString x).data.count '.' ≤ 1 := by
  cases x with
  | nan => decide
  | inf => decide
  | ninf => decide
  | finite q =>
    rw [jsString]
    split_ifs
    · show (('-' :: posRatChars (-q)).count '.') ≤ 1
      have := posRatChars_count_dot (-q)
      simp only [List.count_cons]
      simp only [show (('-' : Char) == '.') = false from rfl]
      simpa using this
    · exact posRatChars_count_dot q

theorem jsString_ne_empty (x : JSNum) : jsString x ≠ ("") := by
  cases x with
  | nan => decide
  | inf => decide
  | ninf => decide
  | finite q =>
    rw [jsString]
    split_ifs <;> intro h <;> have hd := congrArg String.data h
    · simp at hd
    · obtain ⟨c, t, hct, _⟩ := posRatChars_head q
      rw [show (⟨posRatChars q⟩ : String).data = posRatChars q from rfl, hct] at hd
      simp at hd

theorem jsString_ne_error (x : JSNum) : jsString x ≠ ("Error") := by
  cases x with
  | nan => decide
  | inf => decide
  | ninf => decide
  | finite q =>
    rw [jsString]
    split_ifs <;> intro h <;> have hd := congrArg String.data h
    · simp at hd
    · obtain ⟨c, t, hct, hc⟩ := posRatChars_head q
      rw [show (⟨posRatChars q⟩ : String).data = posRatChars q from rfl, hct] at hd
      have hdd : ("Error").data = 'E' :: ['r', 'r', 'o', 'r'] := rfl
      rw [hdd] at hd
      have : c = 'E' := (List.cons_eq_cons.mp hd).1
      subst this
      rw [isDig_iff] at hc
      simp at hc

theorem append_ne_error_of_last (t : String) (c : Char)
    (ht : t.data.getLast? = some c) (hc : c ≠ 'r') (s : String) :
    s ++ t ≠ ("Error") := by
  intro h
  have hd := congrArg String.data h
  rw [String.data_append] at hd
  have hlast := congrArg List.getLast? hd
  rw [List.getLast?_append, ht] at hlast
  have hr : ("Error").data.getLast? = some 'r' := rfl
  rw [hr] at hlast
  simp only [Option.or_some] at hlast
  exact hc (by injection hlast)

theorem dot_append_ne_error (s : String) : s ++ (".") ≠ ("Error") :=
  append_ne_error_of_last (".") '.' (by decide) (by decide) s

theorem digit_props {d : String} (hd : validEventB (Event.digit d) = true) :
    d ≠ ("") ∧ d.data.count '.' = 0 ∧ (∀ s : String, s ++ d ≠ ("Error")) ∧
      d ≠ ("Error") := by
  simp only [validEventB, decide_eq_true_eq, List.mem_cons, List.mem_singleton,
    List.not_mem_nil, or_false] at hd
  rcases hd with rfl | rfl | rfl | rfl | rfl | rfl | rfl | rfl | rfl | rfl
  · exact ⟨by decide, by decide, fun s => append_ne_error_of_last _ '0' (by decide) (by decide) s, by decide⟩
  · exact ⟨by decide, by decide, fun s => append_ne_error_of_last _ '1' (by decide) (by decide) s, by decide⟩
  · exact ⟨by decide, by decide, fun s => append_ne_error_of_last _ '2' (by decide) (by decide) s, by decide⟩
  · exact ⟨by decide, by decide, fun s => append_ne_error_of_last _ '3' (by decide) (by decide) s, by decide⟩
  · exact ⟨by decide, by decide, fun s => append_ne_error_of_last _ '4' (by decide) (by decide) s, by decide⟩
  · exact ⟨by decide, by decide, fun s => append_ne_error_of_last _ '5' (by decide) (by decide) s, by decide⟩
  · exact ⟨by decide, by decide, fun s => append_ne_error_of_last _ '6' (by decide) (by decide) s, by decide⟩
  · exact ⟨by decide, by decide, fun s => append_ne_error_of_last _ '7' (by decide) (by decide) s, by decide⟩
  · exact ⟨by decide, by decide, fun s => append_ne_error_of_last _ '8' (by decide) (by decide) s, by decide⟩
  · exact ⟨by decide, by decide, fun s => append_ne_error_of_last _ '9' (by decide) (by decide) s, by decide⟩

/-! ### Reachability and invariant preservation -/

theorem runFrom_invariant (P : CalculatorState → Prop)
    (hstep : ∀ s e, validEventB e = true → P s → P (stepEv s e)) :
    ∀ es s, es.all validEventB = true → P s → P (runFrom s es) := by
  intro es
  induction es with
  | nil => intro s _ hP; exact hP
  | cons e es ih =>
    intro s hall hP
    rw [List.all_cons, Bool.and_eq_true] at hall
    exact ih (stepEv s e) hall.2 (hstep s e hall.1 hP)

theorem reachable_invariant (P : CalculatorState → Prop)
    (hstep : ∀ s e, validEventB e = true → P s → P (stepEv s e))
    (hinit : P initState) :
    ∀ s, Reachable s → P s := by
  intro s ⟨es, hall, hrun⟩
  rw [← hrun]
  exact runFrom_invariant P hstep es initState hall hinit

theorem activeInv_step (s : CalculatorState) (e : Event)
    (hval : validEventB e = true) (hinv : ActiveInv s) : ActiveInv (stepEv s e) := by
  cases e with
  | digit d =>
    intro h
    simp [stepEv, handleDigit] at h
  | decimal =>
    rw [stepEv, handleDecimal]
    split_ifs with h1 h2
    · intro h; simp at h
    · exact hinv
    · intro h; simp at h
  | operatorBtn op =>
    rw [stepEv, handleOperator]
    split_ifs with h1
    · exact hinv
    · rcases hfo : s.firstOperand with _ | fo
      · intro _; rfl
      · rcases hop : s.operator with _ | o
        · exact hinv
        · simp only []
          split_ifs with h2
          · intro h; simp at h
          · intro _; rfl
  | equals =>
    rw [stepEv, handleEquals]
    rcases hfo : s.firstOperand with _ | fo
    · intro h; simp at h
    · rcases hop : s.operator with _ | o
      · intro h; simp at h
      · simp only []
        split_ifs with h2
        · intro h; simp at h
        · intro h; simp at h
  | clear =>
    intro h
    simp [stepEv, handleClear, initState] at h
  | toggleSign =>
    rw [stepEv, toggleSignPress]
    exact hinv
  | percent =>
    rw [stepEv, percentPress]
    exact hinv

theorem append_ne_empty_right (s t : String) (ht : t ≠ ("")) : s ++ t ≠ ("") := by
  intro h
  have hd := congrArg String.data h
  rw [String.data_append] at hd
  rw [show ("").data = ([] : List Char) from rfl] at hd
  rcases List.append_eq_nil.mp hd with ⟨_, h2⟩
  exact ht (String.ext h2)

theorem nonemptyInv_step (s : CalculatorState) (e : Event)
    (hval : validEventB e = true) (hinv : NonemptyInv s) :
    NonemptyInv (stepEv s e) := by
  cases e with
  | digit d =>
    obtain ⟨hne, _, _, _⟩ := digit_props hval
    simp only [stepEv, handleDigit, NonemptyInv]
    split_ifs
    · exact hne
    · exact append_ne_empty_right _ _ hne
  | decimal =>
    simp only [stepEv, handleDecimal, NonemptyInv]
    split_ifs
    · show ("0.") ≠ ("")
      decide
    · exact hinv
    · exact append_ne_empty_right _ _ (by decide)
  | operatorBtn op =>
    simp only [stepEv, handleOperator, NonemptyInv]
    split_ifs
    · exact hinv
    · rcases hfo : s.firstOperand with _ | fo
      · simp only [NonemptyInv]
        exact hinv
      · rcases hop : s.operator with _ | o
        · exact hinv
        · simp only []
          split_ifs
          · show ("Error") ≠ ("")
            decide
          · exact jsString_ne_empty _
  | equals =>
    simp only [stepEv, handleEquals, NonemptyInv]
    rcases hfo : s.firstOperand with _ | fo
    · exact hinv
    · rcases hop : s.operator with _ | o
      · exact hinv
      · simp only []
        split_ifs
        · show ("Error") ≠ ("")
          decide
        · exact jsString_ne_empty _
  | clear =>
    simp only [stepEv, handleClear, initState, NonemptyInv]
    show ("0") ≠ ("")
    decide
  | toggleSign =>
    simp only [stepEv, toggleSignPress, NonemptyInv]
    exact jsString_ne_empty _
  | percent =>
    simp only [stepEv, percentPress, NonemptyInv]
    exact jsString_ne_empty _

theorem dotInv_step (s : CalculatorState) (e : Event)
    (hval : validEventB e = true) (hinv : DotInv s) : DotInv (stepEv s e) := by
  cases e with
  | digit d =>
    obtain ⟨_, hdot, _, _⟩ := digit_props hval
    simp only [stepEv, handleDigit, DotInv]
    split_ifs
    · show d.data.count '.' ≤ 1
      omega
    · show (s.displayValue ++ d).data.count '.' ≤ 1
      rw [String.data_append, List.count_append, hdot]
      have := hinv
      rw [DotInv] at this
      omega
  | decimal =>
    simp only [stepEv, handleDecimal, DotInv]
    split_ifs with h1 h2
    · show ("0.").data.count '.' ≤ 1
      decide
    · exact hinv
    · show (s.displayValue ++ (".")).data.count '.' ≤ 1
      rw [String.data_append, List.count_append]
      have h0 : s.displayValue.data.count '.' = 0 := List.count_eq_zero.mpr h2
      rw [h0]
      decide
  | operatorBtn op =>
    simp only [stepEv, handleOperator, DotInv]
    split_ifs
    · exact hinv
    · rcases hfo : s.firstOperand with _ | fo
      · exact hinv
      · rcases hop : s.operator with _ | o
        · exact hinv
        · simp only []
          split_ifs
          · show ("Error").data.count '.' ≤ 1
            decide
          · exact jsString_count_dot _
  | equals =>
    simp only [stepEv, handleEquals, DotInv]
    rcases hfo : s.firstOperand with _ | fo
    · exact hinv
    · rcases hop : s.operator with _ | o
      · exact hinv
      · simp only []
        split_ifs
        · show ("Error").data.count '.' ≤ 1
          decide
        · exact jsString_count_dot _
  | clear =>
    simp only [stepEv, handleClear, initState, DotInv]
    show ("0").data.count '.' ≤ 1
    decide
  | toggleSign =>
    simp only [stepEv, toggleSignPress, DotInv]
    exact jsString_count_dot _
  | percent =>
    simp only [stepEv, percentPress, DotInv]
    exact jsString_count_dot _

theorem parseFloat_error : parseFloatJS ("Error") = JSNum.nan := by decide

theorem errorInv_step (s : CalculatorState) (e : Event)
    (hval : validEventB e = true) (hinv : ErrorInv s) : ErrorInv (stepEv s e) := by
  cases e with
  | digit d =>
    obtain ⟨_, _, happ, herr⟩ := digit_props hval
    simp only [stepEv, handleDigit, ErrorInv]
    split_ifs
    · intro hdv
      exact absurd hdv herr
    · intro hdv
      exact absurd hdv (happ s.displayValue)
  | decimal =>
    simp only [stepEv, handleDecimal, ErrorInv]
    split_ifs
    · intro hdv
      have hzd : ("0.") = ("Error") := hdv
      exact absurd hzd (by decide)
    · exact hinv
    · intro hdv
      exact absurd hdv (dot_append_ne_error s.displayValue)
  | operatorBtn op =>
    simp only [stepEv, handleOperator]
    split_ifs
    · exact hinv
    · rcases hfo : s.firstOperand with _ | fo
      · intro hdv
        refine Or.inr ⟨?_, by simp, rfl, rfl⟩
        show some (parseFloatJS s.displayValue) = some JSNum.nan
        rw [show s.displayValue = ("Error") from hdv, parseFloat_error]
      · rcases hop : s.operator with _ | o
        · exact hinv
        · simp only []
          split_ifs
          · intro _
            exact Or.inl ⟨rfl, rfl, rfl⟩
          · intro hdv
            exact absurd hdv (jsString_ne_error _)
  | equals =>
    simp only [stepEv, handleEquals]
    rcases hfo : s.firstOperand with _ | fo
    · dsimp only
      intro hdv
      rcases hinv hdv with ⟨h1, h2, h3⟩ | ⟨h4, _⟩
      · exact Or.inl ⟨h1, rfl, h3⟩
      · rw [hfo] at h4
        exact absurd h4 (by simp)
    · rcases hop : s.operator with _ | o
      · dsimp only
        intro hdv
        rcases hinv hdv with ⟨h1, h2, h3⟩ | ⟨_, h5, _, _⟩
        · rw [hfo] at h2
          exact absurd h2 (by simp)
        · rw [hop] at h5
          exact absurd rfl h5
      · dsimp only
        split_ifs
        · intro _
          exact Or.inl ⟨rfl, rfl, rfl⟩
        · intro hdv
          exact absurd hdv (jsString_ne_error _)
  | clear =>
    simp only [stepEv, handleClear, initState, ErrorInv]
    intro hdv
    exact absurd hdv (by decide)
  | toggleSign =>
    simp only [stepEv, toggleSignPress, ErrorInv]
    intro hdv
    exact absurd hdv (jsString_ne_error _)
  | percent =>
    simp only [stepEv, percentPress, ErrorInv]
    intro hdv
    exact absurd hdv (jsString_ne_error _)

/-! ### Initial-state invariants -/

theorem errorInv_init : ErrorInv initState := by
  intro hdv
  exact absurd hdv (by decide)

theorem nonemptyInv_init : NonemptyInv initState := by
  show ("0") ≠ ("")
  decide

theorem dotInv_init : DotInv initState := by
  show ("0").data.count '.' ≤ 1
  decide

theorem activeInv_init : ActiveInv initState := by
  intro h
  exact absurd rfl h

/-! ### Claims -/

/-- C1 (counterexample): the invariant claimed for the Error state fails on
the code.  After `5 / 0 =` the calculator shows `Error` with `operator`,
`firstOperand` cleared; but pressing `Operator(+)` there keeps
`displayValue = "Error"` while setting `operator = "+"`,
`firstOperand = NaN` and `waitingForSecondOperand = true`, because
`handleOperator` takes its `firstOperand === null` branch and captures
`parseFloat("Error") = NaN`. -/
theorem c1_error_state_counterexample :
    Reachable (run [Event.digit ("5"), Event.operatorBtn ("/"), Event.digit ("0"),
      Event.equals, Event.operatorBtn ("+")]) ∧
    (run [Event.digit ("5"), Event.operatorBtn ("/"), Event.digit ("0"),
      Event.equals, Event.operatorBtn ("+")]).displayValue = ("Error") ∧
    (run [Event.digit ("5"), Event.operatorBtn ("/"), Event.digit ("0"),
      Event.equals, Event.operatorBtn ("+")]).operator = some ("+") ∧
    (run [Event.digit ("5"), Event.operatorBtn ("/"), Event.digit ("0"),
      Event.equals, Event.operatorBtn ("+")]).firstOperand = some JSNum.nan ∧
    (run [Event.digit ("5"), Event.operatorBtn ("/"), Event.digit ("0"),
      Event.equals, Event.operatorBtn ("+")]).waitingForSecondOperand = true := by
  refine ⟨⟨_, by decide, rfl⟩, ?_, ?_, ?_, ?_⟩ <;> decide

/-- C1 (amended): in every reachable state with `displayValue = "Error"`,
either `operator` and `firstOperand` are `null` and
`waitingForSecondOperand` is false, or — when an operator was pressed in
the Error state — `firstOperand` is `NaN`, `operator` is the pressed
operator (mirrored by `activeOperator`) and `waitingForSecondOperand` is
true. -/
theorem c1_error_state_fields (s : CalculatorState) (hr : Reachable s)
    (hdv : s.displayValue = ("Error")) :
    (s.operator = none ∧ s.firstOperand = none ∧ s.waitingForSecondOperand = false) ∨
    (s.firstOperand = some JSNum.nan ∧ s.operator ≠ none ∧
      s.activeOperator = s.operator ∧ s.waitingForSecondOperand = true) :=
  reachable_invariant ErrorInv errorInv_step errorInv_init s hr hdv

/-- Witness for `c1_error_state_fields` at the state reached by `5 / 0 =`. -/
theorem c1_error_state_fields_witness :
    ((run [Event.digit ("5"), Event.operatorBtn ("/"), Event.digit ("0"),
        Event.equals]).operator = none ∧
      (run [Event.digit ("5"), Event.operatorBtn ("/"), Event.digit ("0"),
        Event.equals]).firstOperand = none ∧
      (run [Event.digit ("5"), Event.operatorBtn ("/"), Event.digit ("0"),
        Event.equals]).waitingForSecondOperand = false) ∨
    ((run [Event.digit ("5"), Event.operatorBtn ("/"), Event.digit ("0"),
        Event.equals]).firstOperand = some JSNum.nan ∧
      (run [Event.digit ("5"), Event.operatorBtn ("/"), Event.digit ("0"),
        Event.equals]).operator ≠ none ∧
      (run [Event.digit ("5"), Event.operatorBtn ("/"), Event.digit ("0"),
        Event.equals]).activeOperator =
        (run [Event.digit ("5"), Event.operatorBtn ("/"), Event.digit ("0"),
          Event.equals]).operator ∧
      (run [Event.digit ("5"), Event.operatorBtn ("/"), Event.digit ("0"),
        Event.equals]).waitingForSecondOperand = true) :=
  c1_error_state_fields _ ⟨_, by decide, rfl⟩ (by decide)

/-- C2 (counterexample): a digit pressed in the Error state does not start
a fresh number.  After `5 / 0 =` the state is the Error state
(`firstOperand` and `operator` absent), and `Digit(5)` appends, producing
`"Error5"`, not `"5"`: `handleDigit` only starts fresh when
`waitingForSecondOperand` is set or the display is exactly `"0"`. -/
theorem c2_digit_in_error_counterexample :
    (run [Event.digit ("5"), Event.operatorBtn ("/"), Event.digit ("0"),
      Event.equals]).displayValue = ("Error") ∧
    (run [Event.digit ("5"), Event.operatorBtn ("/"), Event.digit ("0"),
      Event.equals]).firstOperand = none ∧
    (run [Event.digit ("5"), Event.operatorBtn ("/"), Event.digit ("0"),
      Event.equals]).operator = none ∧
    (run [Event.digit ("5"), Event.operatorBtn ("/"), Event.digit ("0"),
      Event.equals, Event.digit ("5")]).displayValue = ("Error5") ∧
    ("Error5" : String) ≠ ("5") := by
  refine ⟨?_, ?_, ?_, ?_, ?_⟩ <;> decide

/-- C2 (amended): pressing `Digit(d)` in the Error state (where
`waitingForSecondOperand` is false and the display is `"Error"`) appends
the digit: the resulting `displayValue` is `"Error" ++ d`. -/
theorem c2_digit_in_error_appends (d : String) (s : CalculatorState)
    (h1 : s.displayValue = ("Error")) (h2 : s.waitingForSecondOperand = false) :
    (handleDigit d s).displayValue = ("Error") ++ d := by
  simp only [handleDigit]
  rw [if_neg, h1]
  rw [h1, h2]
  simp only [Bool.false_eq_true, false_or, not_or]
  exact fun h => absurd h (by decide)

/-- Witness for `c2_digit_in_error_appends` in the Error state after
`5 / 0 =`. -/
theorem c2_digit_in_error_appends_witness :
    (handleDigit ("5") (run [Event.digit ("5"), Event.operatorBtn ("/"),
      Event.digit ("0"), Event.equals])).displayValue = ("Error") ++ ("5") :=
  c2_digit_in_error_appends ("5") _ (by decide) (by decide)

/-- C3 (counterexample): the display is not always a numeric literal,
`"Error"` or `"0"`: both `"Error5"` (digit pressed in the Error state,
appended by `handleDigit`) and `"NaN"` (sign toggle in the Error state,
`String(parseFloat("Error") * -1)`) are reachable display values. -/
theorem c3_display_counterexample :
    Reachable (run [Event.digit ("5"), Event.operatorBtn ("/"), Event.digit ("0"),
      Event.equals, Event.digit ("5")]) ∧
    (run [Event.digit ("5"), Event.operatorBtn ("/"), Event.digit ("0"),
      Event.equals, Event.digit ("5")]).displayValue = ("Error5") ∧
    Reachable (run [Event.digit ("5"), Event.operatorBtn ("/"), Event.digit ("0"),
      Event.equals, Event.toggleSign]) ∧
    (run [Event.digit ("5"), Event.operatorBtn ("/"), Event.digit ("0"),
      Event.equals, Event.toggleSign]).displayValue = ("NaN") := by
  refine ⟨⟨_, by decide, rfl⟩, ?_, ⟨_, by decide, rfl⟩, ?_⟩ <;> decide

/-- C3 (amended): in every state reachable from the identity state,
`displayValue` is never the empty string (the stronger claim — always a
numeric literal, `"Error"` or `"0"` — fails, since `"Error5"` and `"NaN"`
are reachable). -/
theorem c3_display_nonempty (s : CalculatorState) (hr : Reachable s) :
    s.displayValue ≠ ("") :=
  reachable_invariant NonemptyInv nonemptyInv_step nonemptyInv_init s hr

/-- Witness for `c3_display_nonempty` at the identity state. -/
theorem c3_display_nonempty_witness : initState.displayValue ≠ ("") :=
  c3_display_nonempty initState ⟨[], by decide, rfl⟩

/-- C4: chained operators evaluate eagerly left to right with no
precedence: `2 + 3 * 4 =` shows `20`, i.e. `(2 + 3) * 4`, not `14`. -/
theorem c4_left_to_right_chaining :
    (run [Event.digit ("2"), Event.operatorBtn ("+"), Event.digit ("3"),
      Event.operatorBtn ("*"), Event.digit ("4"), Event.equals]).displayValue
      = ("20") ∧ (("20") : String) ≠ ("14") := by
  refine ⟨?_, ?_⟩ <;> decide

/-- C5: `performOperation` on `/` returns `Infinity` whenever the second
operand is `0`, for every first operand; and `5 / 0 =` ends in the Error
state with `operator` and `firstOperand` absent. -/
theorem c5_division_by_zero :
    (∀ a : JSNum, performOperation ("/") a (JSNum.finite 0) = JSNum.inf) ∧
    (run [Event.digit ("5"), Event.operatorBtn ("/"), Event.digit ("0"),
      Event.equals]).displayValue = ("Error") ∧
    (run [Event.digit ("5"), Event.operatorBtn ("/"), Event.digit ("0"),
      Event.equals]).operator = none ∧
    (run [Event.digit ("5"), Event.operatorBtn ("/"), Event.digit ("0"),
      Event.equals]).firstOperand = none := by
  refine ⟨?_, by decide, by decide, by decide⟩
  intro a
  rw [performOperation]
  rw [if_neg (by decide), if_neg (by decide), if_neg (by decide), if_pos (by decide)]
  rw [if_pos rfl]

/-- C6: re-pressing the same operator before a second operand is entered is
a no-op: whenever `activeOperator` equals the pressed operator and
`waitingForSecondOperand` is true, `handleOperator` returns the state
unchanged; in particular `3 + +` leaves the state identical to after the
first `+`. -/
theorem c6_redundant_operator_noop :
    (∀ (s : CalculatorState) (op : String), s.activeOperator = some op →
      s.waitingForSecondOperand = true → handleOperator op s = s) ∧
    run [Event.digit ("3"), Event.operatorBtn ("+"), Event.operatorBtn ("+")] =
      run [Event.digit ("3"), Event.operatorBtn ("+")] := by
  refine ⟨?_, by decide⟩
  intro s op h1 h2
  simp only [handleOperator]
  rw [if_pos ⟨h1, h2⟩]

/-- Witness for `c6_redundant_operator_noop` at the state after `3 +`. -/
theorem c6_redundant_operator_noop_witness :
    handleOperator ("+") (run [Event.digit ("3"), Event.operatorBtn ("+")]) =
      run [Event.digit ("3"), Event.operatorBtn ("+")] :=
  c6_redundant_operator_noop.1 _ ("+") (by decide) (by decide)

/-- C7: the Decimal transition is idempotent on every state, and on every
reachable state the display after a Decimal press contains exactly one
decimal point. -/
theorem c7_decimal_idempotent :
    (∀ s : CalculatorState, handleDecimal (handleDecimal s) = handleDecimal s) ∧
    (∀ s : CalculatorState, Reachable s →
      (handleDecimal s).displayValue.data.count '.' = 1) := by
  constructor
  · intro s
    by_cases h1 : s.waitingForSecondOperand = true
    · have hsrec : handleDecimal s =
          { s with displayValue := ("0."), waitingForSecondOperand := false,
                   activeOperator := none } := by
        rw [handleDecimal, if_pos h1]
      rw [hsrec, handleDecimal,
        if_neg (show ¬(false = true) from by decide),
        if_neg (show ¬(('.' : Char) ∉ ("0.").data) from by decide)]
    · by_cases h2 : '.' ∈ s.displayValue.data
      · have hs : handleDecimal s = s := by
          rw [handleDecimal, if_neg h1, if_neg (by simpa using h2)]
        rw [hs]
        exact hs
      · have hs : handleDecimal s =
            { s with displayValue := s.displayValue ++ ("."),
                     activeOperator := none } := by
          rw [handleDecimal, if_neg h1, if_pos h2]
        rw [hs, handleDecimal, if_neg (by simpa using h1), if_neg]
        simp only [String.data_append, not_not]
        exact List.mem_append_right _ (by decide)
  · intro s hr
    have hd : DotInv s := reachable_invariant DotInv dotInv_step dotInv_init s hr
    rw [DotInv] at hd
    by_cases h1 : s.waitingForSecondOperand = true
    · rw [handleDecimal, if_pos h1]
      show (("0.").data.count '.') = 1
      decide
    · by_cases h2 : '.' ∈ s.displayValue.data
      · rw [handleDecimal, if_neg h1, if_neg (by simpa using h2)]
        have hpos : s.displayValue.data.count '.' ≠ 0 :=
          fun h0 => (List.count_eq_zero.mp h0) h2
        omega
      · rw [handleDecimal, if_neg h1, if_pos h2]
        show (s.displayValue ++ (".")).data.count '.' = 1
        rw [String.data_append, List.count_append, List.count_eq_zero.mpr h2]
        decide

/-- Witness for the reachable-state half of `c7_decimal_idempotent` at the
identity state. -/
theorem c7_decimal_idempotent_witness :
    (handleDecimal initState).displayValue.data.count '.' = 1 :=
  c7_decimal_idempotent.2 initState ⟨[], by decide, rfl⟩

/-- C8: two consecutive sign toggles restore the displayed numeric value:
whenever the display parses to a finite number, the display after
`ToggleSign; ToggleSign` parses to the same value as before.  (In this
exact-rational model there is no negative zero, so no sign-of-zero caveat
is needed.) -/
theorem c8_toggle_sign_involutive (s : CalculatorState) (v : ℚ)
    (h : parseFloatJS s.displayValue = JSNum.finite v) :
    parseFloatJS ((toggleSignPress (toggleSignPress s)).displayValue) =
      parseFloatJS s.displayValue := by
  have hdec : IsDec v := isDec_of_parseFloat h
  have hdecn : IsDec (-v) := by
    obtain ⟨j, m, hjm⟩ := hdec
    exact ⟨j, -m, by push_cast; linarith [hjm]⟩
  have hmul1 : jsMul (JSNum.finite v) (JSNum.finite (-1)) = JSNum.finite (-v) := by
    rw [jsMul, mul_neg_one]
  have hdv1 : (toggleSignPress s).displayValue = jsString (JSNum.finite (-v)) := by
    show jsString (jsMul (parseFloatJS s.displayValue) (JSNum.finite (-1))) = _
    rw [h, hmul1]
  have hmul2 : jsMul (JSNum.finite (-v)) (JSNum.finite (-1)) = JSNum.finite v := by
    rw [jsMul, mul_neg_one, neg_neg]
  have hdv2 : (toggleSignPress (toggleSignPress s)).displayValue =
      jsString (JSNum.finite v) := by
    show jsString (jsMul (parseFloatJS (toggleSignPress s).displayValue)
      (JSNum.finite (-1))) = _
    rw [hdv1, parseFloatJS_jsString hdecn, hmul2]
  rw [hdv2, parseFloatJS_jsString hdec, h]

/-- Witness for `c8_toggle_sign_involutive` at the state showing `5`. -/
theorem c8_toggle_sign_involutive_witness :
    parseFloatJS ((toggleSignPress (toggleSignPress
        (run [Event.digit ("5")]))).displayValue) =
      parseFloatJS (run [Event.digit ("5")]).displayValue :=
  c8_toggle_sign_involutive _ 5 (by decide)

/-- C9: the sign-toggle and percent button handlers modify only
`displayValue`: `operator`, `firstOperand`, `waitingForSecondOperand` and
`activeOperator` are unchanged. -/
theorem c9_toggle_percent_frame (s : CalculatorState) :
    ((toggleSignPress s).operator = s.operator ∧
      (toggleSignPress s).firstOperand = s.firstOperand ∧
      (toggleSignPress s).waitingForSecondOperand = s.waitingForSecondOperand ∧
      (toggleSignPress s).activeOperator = s.activeOperator) ∧
    ((percentPress s).operator = s.operator ∧
      (percentPress s).firstOperand = s.firstOperand ∧
      (percentPress s).waitingForSecondOperand = s.waitingForSecondOperand ∧
      (percentPress s).activeOperator = s.activeOperator) :=
  ⟨⟨rfl, rfl, rfl, rfl⟩, ⟨rfl, rfl, rfl, rfl⟩⟩

/-- C10: in every reachable state, a non-null `activeOperator` implies
`waitingForSecondOperand` is true: the operator highlight is only shown
while the calculator waits for the second operand. -/
theorem c10_active_operator_waiting (s : CalculatorState) (hr : Reachable s)
    (h : s.activeOperator ≠ none) : s.waitingForSecondOperand = true :=
  reachable_invariant ActiveInv activeInv_step activeInv_init s hr h

/-- Witness for `c10_active_operator_waiting` at the state after `3 +`. -/
theorem c10_active_operator_waiting_witness :
    (run [Event.digit ("3"),
      Event.operatorBtn ("+")]).waitingForSecondOperand = true :=
  c10_active_operator_waiting _ ⟨_, by decide, rfl⟩ (by decide)
